import Mathlib

/-!
ChatGPTImport: conversation linearizer, content-part normalizer, markdown renderer.

A shallow embedding of `cmd/gpt.go` and `cmd/markdown.go`, and of the limit and file-name
computations of `cmd/root.go`.

* Go strings are `String`; Go slices are `List` (a nil slice and an empty slice are both `[]`,
  the code only ever asks for `len`).
* `map[string]ConversationNode` is an association list read with `List.lookup`; a missing key
  yields the zero value, as in Go.
* A `*AssetPointer` is `Option AssetPointer`; the Go struct has no fields, so the embedding keeps
  only the identity of the pointee (`addr`).
* The `interface{}` field `Part.Asset` is `Option AssetValue`: `none` is the nil interface, and the
  two constructors are the two dynamic types the code ever stores in it.
* The `for currentNode != ""` loop has no bound in the source; it is embedded with explicit fuel
  and returns `none` when the fuel runs out.
* The flag `limit` is an `Int`; a slice expression with an index out of range is `none`.
-/

namespace ChatGPTImport

/-! ## Data model (`cmd/gpt.go`) -/

/-- AssetPointer is the Go struct with no declared fields; `addr` is the identity of the pointee. -/
structure AssetPointer where
  addr : Nat
  deriving DecidableEq, Repr

/-- PartData is one raw content part. -/
structure PartData where
  ContentType : String
  Text : String
  AudioAssetPointer : Option AssetPointer
  VideoContainerAssetPointer : Option AssetPointer
  FrameAssetPointers : List (Option AssetPointer)
  deriving DecidableEq, Repr

/-- AssetValue is a non-nil dynamic value stored in the `interface{}` field `Part.Asset`. -/
inductive AssetValue where
  | part (p : PartData)
  | pointer (a : AssetPointer)
  deriving DecidableEq, Repr

/-- Part is one normalized part. -/
structure Part where
  Text : String
  Transcript : String
  Asset : Option AssetValue
  deriving DecidableEq, Repr

/-- Message is one normalized message. -/
structure Message where
  Author : String
  Parts : List Part
  deriving DecidableEq, Repr

structure AuthorData where
  Role : String
  deriving DecidableEq, Repr

structure ContentData where
  ContentType : String
  Parts : List PartData
  deriving DecidableEq, Repr

structure MessageMetadata where
  IsUserSystemMessage : Bool
  deriving DecidableEq, Repr

structure MessageData where
  Author : AuthorData
  Content : ContentData
  Metadata : MessageMetadata
  deriving DecidableEq, Repr

structure ConversationNode where
  Message : Option MessageData
  Parent : String
  deriving DecidableEq, Repr

structure Conversation where
  Title : String
  CurrentNode : String
  Mapping : List (String × ConversationNode)
  deriving DecidableEq, Repr

/-- The legacy plain-string part: `UnmarshalJSON` sets only `Text`. -/
def PartData.ofString (s : String) : PartData :=
  { ContentType := "", Text := s, AudioAssetPointer := none,
    VideoContainerAssetPointer := none, FrameAssetPointers := [] }

/-! ## `processParts` -/

/-- The body of `for _, frame := range part.FrameAssetPointers`. -/
def frameStep (result : List Part) (frame : Option AssetPointer) : List Part :=
  match frame with
  | some f => result ++ [{ Text := "", Transcript := "", Asset := some (AssetValue.pointer f) }]
  | none => result

/-- The body of `for _, part := range parts` in `processParts`. -/
def processPartsStep (result : List Part) (part : PartData) : List Part :=
  if part.Text ≠ "" then
    result ++ [{ Text := part.Text, Transcript := "", Asset := none }]
  else if part.ContentType = "audio_transcription" then
    result ++ [{ Text := "", Transcript := part.Text, Asset := none }]
  else if part.ContentType = "audio_asset_pointer" ∨ part.ContentType = "image_asset_pointer"
      ∨ part.ContentType = "video_container_asset_pointer" then
    result ++ [{ Text := "", Transcript := "", Asset := some (AssetValue.part part) }]
  else if part.ContentType = "real_time_user_audio_video_asset_pointer" then
    let result₁ :=
      match part.AudioAssetPointer with
      | some a => result ++ [{ Text := "", Transcript := "", Asset := some (AssetValue.pointer a) }]
      | none => result
    let result₂ :=
      match part.VideoContainerAssetPointer with
      | some v => result₁ ++ [{ Text := "", Transcript := "", Asset := some (AssetValue.pointer v) }]
      | none => result₁
    part.FrameAssetPointers.foldl frameStep result₂
  else
    result

/-- The function `processParts`: fold the loop body over the parts, starting from the nil slice. -/
def processParts (parts : List PartData) : List Part :=
  parts.foldl processPartsStep []

/-! ## `GetConversationMessages` -/

/-- The author label after the gated remap block of the loop body (lines 172-182). -/
def gatedAuthor (msg : MessageData) : String :=
  let author := msg.Author.Role
  if msg.Content.Parts.length > 0
      ∧ (msg.Author.Role ≠ "system" ∨ msg.Metadata.IsUserSystemMessage = true) then
    if author = "assistant" ∨ author = "tool" then "CHATGPT"
    else if author = "system" ∧ msg.Metadata.IsUserSystemMessage = true then "Custom User Info"
    else author
  else author

/-- The `if node, exists := ...; exists && node.Message != nil` block of the loop body:
the accumulator after visiting `currentNode`. -/
def visitNode (conversation : Conversation) (messages : List Message) (currentNode : String) :
    List Message :=
  match conversation.Mapping.lookup currentNode with
  | none => messages
  | some node =>
    match node.Message with
    | none => messages
    | some msg =>
      let author := gatedAuthor msg
      if msg.Content.ContentType = "text" ∨ msg.Content.ContentType = "multimodal" then
        let parts := processParts msg.Content.Parts
        if parts.length > 0 then
          messages ++ [{ Author := author, Parts := parts }]
        else messages
      else messages

/-- The expression `conversation.Mapping[currentNode].Parent`: a missing key gives the zero node,
whose parent is the empty string. -/
def parentOf (conversation : Conversation) (currentNode : String) : String :=
  match conversation.Mapping.lookup currentNode with
  | none => ""
  | some node => node.Parent

/-- The loop `for currentNode != ""`, with fuel: `none` when the fuel runs out before the cursor
becomes empty, otherwise the accumulator in leaf-to-root order. -/
def walk : Nat → Conversation → List Message → String → Option (List Message)
  | fuel, conversation, messages, currentNode =>
    if currentNode ≠ "" then
      match fuel with
      | 0 => none
      | fuel + 1 =>
        walk fuel conversation (visitNode conversation messages currentNode)
          (parentOf conversation currentNode)
    else some messages

/-- The assignment `messages[i], messages[j] = messages[j], messages[i]`; the loop only calls it
with both indices in range. -/
def swapAt (messages : List Message) (i j : Nat) : List Message :=
  match messages[i]?, messages[j]? with
  | some a, some b => (messages.set i b).set j a
  | _, _ => messages

/-- The loop `for i, j := 0, len(messages)-1; i < j; i, j = i+1, j-1`, by recursion on a bound
for the number of iterations. -/
def reverseLoop : Nat → List Message → Int → Int → List Message
  | 0, messages, _, _ => messages
  | n + 1, messages, i, j =>
    if i < j then reverseLoop n (swapAt messages i.toNat j.toNat) (i + 1) (j - 1)
    else messages

/-- The in-place reversal at the end of `GetConversationMessages`. -/
def reverseMessages (messages : List Message) : List Message :=
  reverseLoop messages.length messages 0 ((messages.length : Int) - 1)

/-- The function `GetConversationMessages`, with the fuel of its unbounded loop. -/
def GetConversationMessages (fuel : Nat) (conversation : Conversation) : Option (List Message) :=
  match walk fuel conversation [] conversation.CurrentNode with
  | none => none
  | some messages => some (reverseMessages messages)

/-! ## `composeMarkdown` (`cmd/markdown.go`) -/

/-- The body of `for _, part := range msg.Parts`: what one part appends to the builder. -/
def writePart (sb : String) (part : Part) : String :=
  if part.Text ≠ "" then sb ++ (part.Text ++ "\n\n")
  else if part.Transcript ≠ "" then sb ++ ("[Transcript]\n" ++ part.Transcript ++ "\n\n")
  else if part.Asset ≠ none then sb ++ "[File]: [asset_pointer]\n\n"
  else sb

/-- The body of `for _, msg := range messages`. -/
def writeMessage (sb : String) (msg : Message) : String :=
  let sb₁ := sb ++ ("**" ++ msg.Author ++ ":**\n\n")
  let sb₂ := msg.Parts.foldl writePart sb₁
  sb₂ ++ "\n---\n\n"

/-- The function `composeMarkdown`; it returns when `GetConversationMessages` does. -/
def composeMarkdown (fuel : Nat) (conversation : Conversation) : Option String :=
  let sb := "" ++ ("# " ++ conversation.Title ++ "\n\n")
  match GetConversationMessages fuel conversation with
  | none => none
  | some messages => some (messages.foldl writeMessage sb)

/-! ## Reference definitions, written from the specification -/

/-- The author remap as the specification words it: `assistant` or `tool` become `CHATGPT`,
`system` with the user-system flag becomes `Custom User Info`, every other role is unchanged. -/
def remapAuthor (role : String) (isUserSystemMessage : Bool) : String :=
  if role = "assistant" ∨ role = "tool" then "CHATGPT"
  else if role = "system" ∧ isUserSystemMessage = true then "Custom User Info"
  else role

/-- What the direct traversal emits at one node: for a node that has a message with content type
`text` or `multimodal` whose normalized parts are non-empty, the remapped author with the
normalized parts; nothing otherwise. -/
def emitOf (node : ConversationNode) : Option Message :=
  match node.Message with
  | none => none
  | some msg =>
    if (msg.Content.ContentType = "text" ∨ msg.Content.ContentType = "multimodal")
        ∧ processParts msg.Content.Parts ≠ [] then
      some { Author := remapAuthor msg.Author.Role msg.Metadata.IsUserSystemMessage,
             Parts := processParts msg.Content.Parts }
    else none

/-- The direct traversal: visit the given node ids in order (root first) and emit per node. -/
def directTraversal (conversation : Conversation) (rootToLeaf : List String) : List Message :=
  rootToLeaf.filterMap (fun id => (conversation.Mapping.lookup id).bind emitOf)

/-- The chain of parent links: `IsParentChain c cur ids` says that `ids = [c_k, ..., c_1]` is the
chain that starts at the cursor `cur`: every `c_i` is a non-empty key of the map, the parent of
`c_(i+1)` is `c_i`, and the parent of `c_1` (the cursor itself when `ids` is empty) is empty or
missing from the map. -/
def IsParentChain (conversation : Conversation) : String → List String → Prop
  | cur, [] => cur = "" ∨ conversation.Mapping.lookup cur = none
  | cur, id :: rest =>
    cur = id ∧ id ≠ "" ∧ (conversation.Mapping.lookup id).isSome = true
      ∧ IsParentChain conversation (parentOf conversation id) rest

/-- Deciding `IsParentChain` by recursion on the chain. -/
def IsParentChain.dec (conversation : Conversation) :
    (cur : String) → (ids : List String) → Decidable (IsParentChain conversation cur ids)
  | cur, [] => inferInstanceAs (Decidable (cur = "" ∨ conversation.Mapping.lookup cur = none))
  | cur, id :: rest =>
    have := IsParentChain.dec conversation (parentOf conversation id) rest
    inferInstanceAs (Decidable (cur = id ∧ id ≠ "" ∧ (conversation.Mapping.lookup id).isSome = true
      ∧ IsParentChain conversation (parentOf conversation id) rest))

instance (conversation : Conversation) (cur : String) (ids : List String) :
    Decidable (IsParentChain conversation cur ids) :=
  IsParentChain.dec conversation cur ids

/-- The conversation with the message of node `id` removed (the node and its parent link stay). -/
def clearMessage (conversation : Conversation) (id : String) : Conversation :=
  { conversation with
    Mapping := conversation.Mapping.map
      (fun kv => if kv.1 = id then (kv.1, { kv.2 with Message := none }) else kv) }

/-- The body the renderer writes for one part: what `writePart` appends to an empty builder. -/
def partBody (part : Part) : String :=
  writePart "" part

/-- The bodies of the parts of one message, in order. -/
def renderParts : List Part → String
  | [] => ""
  | p :: ps => partBody p ++ renderParts ps

/-- The message blocks in order: author heading, part bodies, separator. -/
def renderMessages : List Message → String
  | [] => ""
  | m :: ms => ("**" ++ m.Author ++ ":**\n\n" ++ renderParts m.Parts ++ "\n---\n\n")
      ++ renderMessages ms

/-- The document of the specification: title heading, then the message blocks. -/
def renderDocument (title : String) (messages : List Message) : String :=
  "# " ++ title ++ "\n\n" ++ renderMessages messages

/-- The normalized asset reference to a pointer. -/
def assetRef (a : AssetPointer) : Part :=
  { Text := "", Transcript := "", Asset := some (AssetValue.pointer a) }

/-- The two-node conversation of the end-to-end scenario. -/
def scenarioConversation : Conversation :=
  { Title := "Test", CurrentNode := "n2",
    Mapping :=
      [("n1", { Message := some { Author := ⟨"user"⟩,
                                  Content := ⟨"text", [PartData.ofString "Hi"]⟩,
                                  Metadata := ⟨false⟩ },
                Parent := "" }),
       ("n2", { Message := some { Author := ⟨"assistant"⟩,
                                  Content := ⟨"text", [PartData.ofString "Hello!"]⟩,
                                  Metadata := ⟨false⟩ },
                Parent := "n1" })] }

/-- A one-node conversation whose only message has role `system`, content type `text` and one
non-empty text part; `flag` is its `is_user_system_message`. -/
def systemConversation (flag : Bool) : Conversation :=
  { Title := "Sys", CurrentNode := "s",
    Mapping :=
      [("s", { Message := some { Author := ⟨"system"⟩,
                                 Content := ⟨"text", [PartData.ofString "Be brief"]⟩,
                                 Metadata := ⟨flag⟩ },
               Parent := "" })] }

/-- The scenario conversation with an `image` message (whose parts normalize to a text part)
inserted between `n1` and `n2`. -/
def imageConversation : Conversation :=
  { Title := "Test", CurrentNode := "n2",
    Mapping :=
      [("n1", { Message := some { Author := ⟨"user"⟩,
                                  Content := ⟨"text", [PartData.ofString "Hi"]⟩,
                                  Metadata := ⟨false⟩ },
                Parent := "" }),
       ("img", { Message := some { Author := ⟨"user"⟩,
                                   Content := ⟨"image", [PartData.ofString "a picture"]⟩,
                                   Metadata := ⟨false⟩ },
                 Parent := "n1" }),
       ("n2", { Message := some { Author := ⟨"assistant"⟩,
                                  Content := ⟨"text", [PartData.ofString "Hello!"]⟩,
                                  Metadata := ⟨false⟩ },
                Parent := "img" })] }

/-- A one-node conversation whose only message is a `user` message of content type `text` with
one `audio_transcription` part whose text is empty. -/
def transcriptConversation : Conversation :=
  { Title := "T", CurrentNode := "a",
    Mapping :=
      [("a", { Message := some { Author := ⟨"user"⟩,
                                 Content := ⟨"text", [{ ContentType := "audio_transcription",
                                                        Text := "",
                                                        AudioAssetPointer := none,
                                                        VideoContainerAssetPointer := none,
                                                        FrameAssetPointers := [] }]⟩,
                                 Metadata := ⟨false⟩ },
               Parent := "" })] }

/-! ## `rootCommand` (`cmd/root.go`): the limit and the output file names -/

/-- The value of `limit` after the adjustment
`if limit == 0 || (limit != 0 && len(conversations) < limit)`, for `n = len(conversations)`. -/
def effectiveLimit (limit : Int) (n : Nat) : Int :=
  if limit = 0 ∨ (limit ≠ 0 ∧ (n : Int) < limit) then (n : Int) else limit

/-- The slice expression `xs[:hi]`: the first `hi` elements, and `none` for the run-time panic
`slice bounds out of range` of an index outside `0 ≤ hi ≤ len`. (Go checks `hi` against the
capacity, which is at least the length; `effectiveLimit` never exceeds the length.) -/
def sliceTo {α : Type} (xs : List α) (hi : Int) : Option (List α) :=
  if 0 ≤ hi ∧ hi ≤ (xs.length : Int) then some (xs.take hi.toNat) else none

/-- The conversations that the loop `for _, conv := range conversations[:limit]` of `rootCommand`
ranges over, for the value `limit` of the flag; `none` when the slice expression panics. -/
def conversationsToProcess (limit : Int) (conversations : List Conversation) :
    Option (List Conversation) :=
  sliceTo conversations (effectiveLimit limit conversations.length)

/-- The call `strings.ReplaceAll(s, old, new)` for one-character `old` and `new`: every occurrence
of the character is replaced. -/
def replaceAllChar (s : String) (old new : Char) : String :=
  ⟨s.data.map (fun ch => if ch = old then new else ch)⟩

/-- The value `safeTitle`: spaces, then slashes, replaced by underscores. -/
def safeTitle (title : String) : String :=
  replaceAllChar (replaceAllChar title ' ' '_') '/' '_'

/-- The value `filename` of the loop body. -/
def outputFileName (outputDir title : String) : String :=
  outputDir ++ "/" ++ safeTitle title ++ ".md"

/-- The loop over the conversations to process: the calls `renderMarkdown(md, filename)` it makes,
in order, as pairs of file name and content; `none` when a `composeMarkdown` call runs out of
fuel. -/
def writeLoop (fuel : Nat) (outputDir : String) :
    List Conversation → Option (List (String × String))
  | [] => some []
  | conv :: rest =>
    match composeMarkdown fuel conv with
    | none => none
    | some md =>
      match writeLoop fuel outputDir rest with
      | none => none
      | some writes => some ((outputFileName outputDir conv.Title, md) :: writes)

/-! ## Reference notions for the walk and for normalized parts -/

/-- The cursor of the loop of `GetConversationMessages` after `n` assignments
`currentNode = conversation.Mapping[currentNode].Parent`. -/
def cursorAfter (conversation : Conversation) (n : Nat) : String :=
  (parentOf conversation)^[n] conversation.CurrentNode

/-- The number of nodes in the map: the number of distinct keys. -/
def nodeCount (conversation : Conversation) : Nat :=
  (conversation.Mapping.map Prod.fst).dedup.length

/-- The parent chain from the current node never revisits a node id: two cursors of a walk that
has not yet reached the empty id are different. -/
def NoRevisit (conversation : Conversation) : Prop :=
  ∀ i j : Nat, i < j → (∀ k, k ≤ j → cursorAfter conversation k ≠ "") →
    cursorAfter conversation i ≠ cursorAfter conversation j

/-- The number of populated fields of a normalized part among text (non-empty), transcript
(non-empty) and asset (non-nil). -/
def populatedCount (q : Part) : Nat :=
  (if q.Text ≠ "" then 1 else 0) + (if q.Transcript ≠ "" then 1 else 0)
    + (if q.Asset ≠ none then 1 else 0)

/-- The raw `audio_transcription` part with the given text and no asset pointer. -/
def transcriptionPart (text : String) : PartData :=
  { ContentType := "audio_transcription", Text := text, AudioAssetPointer := none,
    VideoContainerAssetPointer := none, FrameAssetPointers := [] }

/-- A one-node conversation whose only message is a `user` message with the given content type
and one `audio_transcription` part with the given text. -/
def spokenConversation (contentType text : String) : Conversation :=
  { Title := "T", CurrentNode := "a",
    Mapping :=
      [("a", { Message := some { Author := ⟨"user"⟩,
                                 Content := ⟨contentType, [transcriptionPart text]⟩,
                                 Metadata := ⟨false⟩ },
               Parent := "" })] }

/-- A conversation whose current node `a` is its own parent. -/
def selfLoopConversation : Conversation :=
  { Title := "Loop", CurrentNode := "a",
    Mapping :=
      [("a", { Message := some { Author := ⟨"user"⟩,
                                 Content := ⟨"text", [PartData.ofString "Hi"]⟩,
                                 Metadata := ⟨false⟩ },
               Parent := "a" })] }

/-- A conversation with the given title and no node. -/
def titledConversation (title : String) : Conversation :=
  { Title := title, CurrentNode := "", Mapping := [] }

/-! ## Lemmas on `processParts` -/

theorem frameStep_foldl (frames : List (Option AssetPointer)) (result : List Part) :
    frames.foldl frameStep result = result ++ frames.foldl frameStep [] := by
  induction frames using List.reverseRecOn with
  | nil => simp
  | append_singleton fs f ih =>
    rw [List.foldl_append, List.foldl_append, ih]
    cases f <;> simp [frameStep]

theorem frameStep_foldl_nil (frames : List (Option AssetPointer)) :
    frames.foldl frameStep [] =
      (frames.filterMap id).map (fun a => (⟨"", "", some (AssetValue.pointer a)⟩ : Part)) := by
  induction frames using List.reverseRecOn with
  | nil => simp
  | append_singleton fs f ih =>
    rw [List.foldl_append, ih]
    cases f <;> simp [frameStep]

theorem processPartsStep_eq (result : List Part) (part : PartData) :
    processPartsStep result part = result ++ processPartsStep [] part := by
  unfold processPartsStep
  split_ifs
  · simp
  · simp
  · simp
  · simp only [List.nil_append]
    rw [frameStep_foldl, frameStep_foldl _ (match part.VideoContainerAssetPointer with
      | some v => _ | none => _)]
    cases part.AudioAssetPointer <;> cases part.VideoContainerAssetPointer <;> simp
  · simp

theorem processParts_foldl (parts : List PartData) (result : List Part) :
    parts.foldl processPartsStep result = result ++ processParts parts := by
  unfold processParts
  induction parts using List.reverseRecOn with
  | nil => simp
  | append_singleton ps p ih =>
    rw [List.foldl_append, List.foldl_append, ih]
    simp only [List.foldl_cons, List.foldl_nil]
    rw [processPartsStep_eq, processPartsStep_eq (List.foldl _ _ _), List.append_assoc]

theorem processParts_append (xs ys : List PartData) :
    processParts (xs ++ ys) = processParts xs ++ processParts ys := by
  unfold processParts
  rw [List.foldl_append, processParts_foldl]
  rfl

theorem processParts_cons (p : PartData) (ps : List PartData) :
    processParts (p :: ps) = processParts [p] ++ processParts ps :=
  processParts_append [p] ps

/-! ## The in-place reversal is list reversal -/

theorem swapAt_cons_succ (a : Message) (l : List Message) (i j : Nat) :
    swapAt (a :: l) (i + 1) (j + 1) = a :: swapAt l i j := by
  cases h1 : l[i]? <;> cases h2 : l[j]? <;> simp [swapAt, h1, h2]

theorem swapAt_zero (x y : Message) (m b : List Message) :
    swapAt (x :: (m ++ y :: b)) 0 (m.length + 1) = y :: (m ++ x :: b) := by
  have h : (m ++ y :: b)[m.length]? = some y := by
    rw [List.getElem?_append_right (Nat.le_refl _)]
    simp
  have hset : (m ++ y :: b).set m.length x = m ++ x :: b := by
    rw [List.set_append_right _ _ (Nat.le_refl _)]
    simp
  unfold swapAt
  rw [List.getElem?_cons_succ, h]
  simp [hset]

theorem swapAt_append (a m b : List Message) (x y : Message) :
    swapAt (a ++ x :: (m ++ y :: b)) a.length (a.length + m.length + 1)
      = a ++ y :: (m ++ x :: b) := by
  induction a with
  | nil => simpa using swapAt_zero x y m b
  | cons h t ih =>
    have : (h :: t).length + m.length + 1 = (t.length + m.length + 1) + 1 := by
      simp only [List.length_cons]; omega
    rw [this, List.length_cons, List.cons_append, swapAt_cons_succ, ih, List.cons_append]

theorem reverseLoop_spec (fuel : Nat) :
    ∀ a m b : List Message, m.length ≤ fuel →
      reverseLoop fuel (a ++ m ++ b) (a.length : Int) ((a.length : Int) + (m.length : Int) - 1)
        = a ++ m.reverse ++ b := by
  induction fuel with
  | zero =>
    intro a m b hm
    have : m = [] := List.eq_nil_of_length_eq_zero (by omega)
    subst this
    simp [reverseLoop]
  | succ n ih =>
    intro a m b hm
    cases m with
    | nil => simp [reverseLoop]
    | cons x t =>
      rcases List.eq_nil_or_concat t with ht | ⟨m', y, ht⟩
      · subst ht
        simp [reverseLoop]
      · rw [List.concat_eq_append] at ht
        subst ht
        have hlt : (a.length : Int) < (a.length : Int) + ((x :: (m' ++ [y])).length : Int) - 1 := by
          simp only [List.length_cons, List.length_append, List.length_nil]
          push_cast
          omega
        have hi : (a.length : Int).toNat = a.length := by simp
        have hj : ((a.length : Int) + ((x :: (m' ++ [y])).length : Int) - 1).toNat
            = a.length + m'.length + 1 := by
          simp only [List.length_cons, List.length_append, List.length_nil]
          push_cast
          omega
        have hshape : a ++ x :: (m' ++ [y]) ++ b = a ++ x :: (m' ++ y :: b) := by simp
        have hm' : m'.length ≤ n := by
          simp only [List.length_cons, List.length_append, List.length_nil] at hm
          omega
        have hrec := ih (a ++ [y]) m' (x :: b) hm'
        have hidx : ((a ++ [y]).length : Int) + (m'.length : Int) - 1
            = (a.length : Int) + ((x :: (m' ++ [y])).length : Int) - 1 - 1 := by
          simp only [List.length_cons, List.length_append, List.length_nil]
          push_cast
          omega
        have hidx0 : ((a ++ [y]).length : Int) = (a.length : Int) + 1 := by simp
        rw [hidx, hidx0] at hrec
        rw [reverseLoop, if_pos hlt, hi, hj, hshape, swapAt_append]
        have hshape' : a ++ y :: (m' ++ x :: b) = a ++ [y] ++ m' ++ x :: b := by simp
        rw [hshape', hrec]
        simp

theorem reverseMessages_eq_reverse (messages : List Message) :
    reverseMessages messages = messages.reverse := by
  have h := reverseLoop_spec messages.length [] messages [] (Nat.le_refl _)
  simpa [reverseMessages] using h

/-! ## Closed form of what one raw part emits -/

theorem processParts_singleton (p : PartData) : processParts [p] = processPartsStep [] p := rfl

theorem processParts_eq_flatMap (parts : List PartData) :
    processParts parts = parts.flatMap (fun p => processParts [p]) := by
  induction parts with
  | nil => rfl
  | cons p ps ih => rw [processParts_cons, ih, List.flatMap_cons]

theorem mem_processParts {parts : List PartData} {q : Part} (h : q ∈ processParts parts) :
    ∃ p ∈ parts, q ∈ processParts [p] := by
  rw [processParts_eq_flatMap, List.mem_flatMap] at h
  exact h

theorem processParts_text (p : PartData) (h : p.Text ≠ "") :
    processParts [p] = [{ Text := p.Text, Transcript := "", Asset := none }] := by
  simp [processParts_singleton, processPartsStep, h]

theorem processParts_transcription (p : PartData) (h : p.Text = "")
    (hct : p.ContentType = "audio_transcription") :
    processParts [p] = [{ Text := "", Transcript := "", Asset := none }] := by
  simp [processParts_singleton, processPartsStep, h, hct]

theorem processParts_pointer (p : PartData) (h : p.Text = "")
    (hct : p.ContentType = "audio_asset_pointer" ∨ p.ContentType = "image_asset_pointer"
      ∨ p.ContentType = "video_container_asset_pointer") :
    processParts [p] = [{ Text := "", Transcript := "", Asset := some (AssetValue.part p) }] := by
  have hne : ¬ p.ContentType = "audio_transcription" := by
    rcases hct with h1 | h1 | h1 <;> rw [h1] <;> decide
  simp [processParts_singleton, processPartsStep, h, hne, hct]

theorem processParts_realtime (p : PartData) (h : p.Text = "")
    (hct : p.ContentType = "real_time_user_audio_video_asset_pointer") :
    processParts [p]
      = (p.AudioAssetPointer.toList ++ p.VideoContainerAssetPointer.toList
          ++ p.FrameAssetPointers.filterMap id).map assetRef := by
  rw [processParts_singleton]
  unfold processPartsStep
  have h1 : ¬ p.ContentType = "audio_transcription" := by rw [hct]; decide
  have h2 : ¬ (p.ContentType = "audio_asset_pointer" ∨ p.ContentType = "image_asset_pointer"
      ∨ p.ContentType = "video_container_asset_pointer") := by rw [hct]; decide
  simp only [h, ne_eq, not_true_eq_false, if_false, h1, h2, hct, if_true]
  rw [frameStep_foldl, frameStep_foldl_nil]
  cases p.AudioAssetPointer <;> cases p.VideoContainerAssetPointer <;> simp [assetRef]

theorem processParts_other (p : PartData) (h : p.Text = "")
    (h1 : ¬ p.ContentType = "audio_transcription")
    (h2 : ¬ (p.ContentType = "audio_asset_pointer" ∨ p.ContentType = "image_asset_pointer"
      ∨ p.ContentType = "video_container_asset_pointer"))
    (h3 : ¬ p.ContentType = "real_time_user_audio_video_asset_pointer") :
    processParts [p] = [] := by
  simp [processParts_singleton, processPartsStep, h, h1, h2, h3]

theorem asset_part_fields {parts : List PartData} {q : Part} (h : q ∈ processParts parts)
    (ha : q.Asset ≠ none) : q.Text = "" ∧ q.Transcript = "" := by
  obtain ⟨p, -, hq⟩ := mem_processParts h
  by_cases ht : p.Text = ""
  · by_cases h1 : p.ContentType = "audio_transcription"
    · rw [processParts_transcription p ht h1, List.mem_singleton] at hq
      subst hq
      exact absurd rfl ha
    · by_cases h2 : p.ContentType = "audio_asset_pointer" ∨ p.ContentType = "image_asset_pointer"
          ∨ p.ContentType = "video_container_asset_pointer"
      · rw [processParts_pointer p ht h2, List.mem_singleton] at hq
        subst hq
        exact ⟨rfl, rfl⟩
      · by_cases h3 : p.ContentType = "real_time_user_audio_video_asset_pointer"
        · rw [processParts_realtime p ht h3, List.mem_map] at hq
          obtain ⟨a, -, rfl⟩ := hq
          exact ⟨rfl, rfl⟩
        · rw [processParts_other p ht h1 h2 h3] at hq
          simp at hq
  · rw [processParts_text p ht, List.mem_singleton] at hq
    subst hq
    exact absurd rfl ha

/-! ## Lemmas on the walk -/

theorem processParts_ne_nil_parts {parts : List PartData} (h : processParts parts ≠ []) :
    parts ≠ [] := by
  intro hp
  subst hp
  exact h rfl

theorem gatedAuthor_eq_remap (msg : MessageData) (h : processParts msg.Content.Parts ≠ []) :
    gatedAuthor msg = remapAuthor msg.Author.Role msg.Metadata.IsUserSystemMessage := by
  have hlen : msg.Content.Parts.length > 0 :=
    List.length_pos.mpr (processParts_ne_nil_parts h)
  unfold gatedAuthor remapAuthor
  by_cases hgate : msg.Author.Role ≠ "system" ∨ msg.Metadata.IsUserSystemMessage = true
  · simp only [hlen, hgate, and_self, if_true]
  · have hsys : msg.Author.Role = "system" := by
      by_contra hne
      exact hgate (Or.inl hne)
    have hflag : ¬ msg.Metadata.IsUserSystemMessage = true := fun hf => hgate (Or.inr hf)
    simp [hsys, hflag]

theorem visitNode_eq (c : Conversation) (messages : List Message) (cur : String) :
    visitNode c messages cur = messages ++ visitNode c [] cur := by
  unfold visitNode
  cases c.Mapping.lookup cur with
  | none => simp
  | some node =>
    obtain ⟨m, parent⟩ := node
    cases m with
    | none => simp
    | some msg =>
      simp only [List.nil_append]
      split_ifs <;> simp

theorem visitNode_nil (c : Conversation) (cur : String) :
    visitNode c [] cur = ((c.Mapping.lookup cur).bind emitOf).toList := by
  unfold visitNode
  cases c.Mapping.lookup cur with
  | none => simp
  | some node =>
    simp only [Option.some_bind]
    unfold emitOf
    obtain ⟨m, parent⟩ := node
    cases m with
    | none => simp
    | some msg =>
      simp only [List.nil_append]
      by_cases hct : msg.Content.ContentType = "text" ∨ msg.Content.ContentType = "multimodal"
      · by_cases hp : processParts msg.Content.Parts = []
        · simp [hct, hp]
        · have hlen : (processParts msg.Content.Parts).length > 0 := List.length_pos.mpr hp
          simp [hct, hp, hlen, gatedAuthor_eq_remap msg hp]
      · simp [hct]

theorem walk_chain (c : Conversation) :
    ∀ (ids : List String) (cur : String) (messages : List Message) (fuel : Nat),
      IsParentChain c cur ids → ids.length < fuel →
      walk fuel c messages cur
        = some (messages ++ ids.filterMap (fun id => (c.Mapping.lookup id).bind emitOf)) := by
  intro ids
  induction ids with
  | nil =>
    intro cur messages fuel hchain hfuel
    cases fuel with
    | zero => omega
    | succ n =>
      rcases hchain with hcur | hcur
      · subst hcur
        simp [walk]
      · by_cases he : cur = ""
        · subst he
          simp [walk]
        · have hv : visitNode c messages cur = messages := by simp [visitNode, hcur]
          have hp : parentOf c cur = "" := by simp [parentOf, hcur]
          rw [walk, if_pos he, hv, hp]
          cases n <;> simp [walk]
  | cons id rest ih =>
    intro cur messages fuel hchain hfuel
    obtain ⟨hcur, hne, -, hrest⟩ := hchain
    subst hcur
    cases fuel with
    | zero => omega
    | succ n =>
      have hn : rest.length < n := by
        simp only [List.length_cons] at hfuel
        omega
      rw [walk, if_pos hne, ih _ _ _ hrest hn, visitNode_eq, visitNode_nil]
      cases h : (c.Mapping.lookup cur).bind emitOf <;> simp [h]

theorem mem_visitNode_nil (c : Conversation) (cur : String) (m : Message) :
    m ∈ visitNode c [] cur ↔ ∃ node, c.Mapping.lookup cur = some node ∧ emitOf node = some m := by
  rw [visitNode_nil]
  cases h : c.Mapping.lookup cur <;> simp

theorem emitOf_eq_some (node : ConversationNode) (m : Message) (h : emitOf node = some m) :
    ∃ msg, node.Message = some msg
      ∧ (msg.Content.ContentType = "text" ∨ msg.Content.ContentType = "multimodal")
      ∧ processParts msg.Content.Parts ≠ []
      ∧ m = { Author := remapAuthor msg.Author.Role msg.Metadata.IsUserSystemMessage,
              Parts := processParts msg.Content.Parts } := by
  obtain ⟨om, parent⟩ := node
  cases om with
  | none => simp [emitOf] at h
  | some msg =>
    refine ⟨msg, rfl, ?_⟩
    simp only [emitOf] at h
    split_ifs at h with hc
    exact ⟨hc.1, hc.2, (Option.some.inj h).symm⟩

theorem walk_invariant (c : Conversation) (P : Message → Prop)
    (hstep : ∀ cur m, m ∈ visitNode c [] cur → P m) :
    ∀ (fuel : Nat) (messages : List Message) (cur : String) (out : List Message),
      walk fuel c messages cur = some out → (∀ m ∈ messages, P m) → ∀ m ∈ out, P m := by
  intro fuel
  induction fuel with
  | zero =>
    intro messages cur out hw hP
    by_cases he : cur = ""
    · subst he
      simp only [walk, ne_eq, not_true_eq_false, if_false, Option.some.injEq] at hw
      subst hw
      exact hP
    · simp [walk, he] at hw
  | succ n ih =>
    intro messages cur out hw hP
    by_cases he : cur = ""
    · subst he
      simp only [walk, ne_eq, not_true_eq_false, if_false, Option.some.injEq] at hw
      subst hw
      exact hP
    · rw [walk, if_pos he] at hw
      refine ih _ _ _ hw ?_
      intro m hm
      rw [visitNode_eq, List.mem_append] at hm
      rcases hm with hm | hm
      · exact hP m hm
      · exact hstep cur m hm

/-! ## Lemmas on the renderer -/

theorem writePart_eq (sb : String) (p : Part) : writePart sb p = sb ++ partBody p := by
  unfold partBody writePart
  split_ifs <;> simp

theorem foldl_writePart (parts : List Part) (sb : String) :
    parts.foldl writePart sb = sb ++ renderParts parts := by
  induction parts generalizing sb with
  | nil => simp [renderParts]
  | cons p ps ih =>
    rw [List.foldl_cons, ih, writePart_eq, renderParts, String.append_assoc]

theorem writeMessage_eq (sb : String) (m : Message) :
    writeMessage sb m
      = sb ++ ("**" ++ m.Author ++ ":**\n\n" ++ renderParts m.Parts ++ "\n---\n\n") := by
  unfold writeMessage
  simp only [foldl_writePart, String.append_assoc]

theorem foldl_writeMessage (messages : List Message) (sb : String) :
    messages.foldl writeMessage sb = sb ++ renderMessages messages := by
  induction messages generalizing sb with
  | nil => simp [renderMessages]
  | cons m ms ih =>
    rw [List.foldl_cons, ih, writeMessage_eq, renderMessages, String.append_assoc]

/-! ## Lemmas on `clearMessage` -/

theorem lookup_clearMessage (c : Conversation) (id k : String) :
    (clearMessage c id).Mapping.lookup k
      = (c.Mapping.lookup k).map
          (fun n => if k = id then { n with Message := none } else n) := by
  unfold clearMessage
  simp only
  induction c.Mapping with
  | nil => rfl
  | cons kv rest ih =>
    obtain ⟨a, n⟩ := kv
    by_cases hka : k = a
    · subst hka
      by_cases hid : k = id
      · simp [hid]
      · simp [hid]
    · have hbeq : (k == a) = false := by simpa using hka
      by_cases haid : a = id
      · simp only [List.map_cons, haid, if_true]
        rw [List.lookup_cons, List.lookup_cons]
        have hbeq' : (k == id) = false := by rw [← haid]; exact hbeq
        simp only [hbeq', haid ▸ hbeq]
        exact ih
      · simp only [List.map_cons, haid, if_false]
        rw [List.lookup_cons, List.lookup_cons]
        simp only [hbeq]
        exact ih

theorem visitNode_clearMessage (c : Conversation) (id : String) (node : ConversationNode)
    (msg : MessageData) (hnode : c.Mapping.lookup id = some node) (hmsg : node.Message = some msg)
    (hct : ¬ (msg.Content.ContentType = "text" ∨ msg.Content.ContentType = "multimodal"))
    (messages : List Message) (cur : String) :
    visitNode (clearMessage c id) messages cur = visitNode c messages cur := by
  unfold visitNode
  rw [lookup_clearMessage]
  by_cases hcur : cur = id
  · subst hcur
    simp [hnode, hmsg, hct]
  · cases c.Mapping.lookup cur <;> simp [hcur]

theorem parentOf_clearMessage (c : Conversation) (id cur : String) :
    parentOf (clearMessage c id) cur = parentOf c cur := by
  unfold parentOf
  rw [lookup_clearMessage]
  cases c.Mapping.lookup cur with
  | none => rfl
  | some n => by_cases hcur : cur = id <;> simp [hcur]

theorem walk_clearMessage (c : Conversation) (id : String) (node : ConversationNode)
    (msg : MessageData) (hnode : c.Mapping.lookup id = some node) (hmsg : node.Message = some msg)
    (hct : ¬ (msg.Content.ContentType = "text" ∨ msg.Content.ContentType = "multimodal")) :
    ∀ (fuel : Nat) (messages : List Message) (cur : String),
      walk fuel (clearMessage c id) messages cur = walk fuel c messages cur := by
  intro fuel
  induction fuel with
  | zero => intro messages cur; simp [walk]
  | succ n ih =>
    intro messages cur
    rw [walk, walk, visitNode_clearMessage c id node msg hnode hmsg hct, parentOf_clearMessage, ih]

/-! ## Claims -/

/-- C1: `composeMarkdown` returns, whenever `GetConversationMessages` does, exactly the title
heading `# <title>` and a blank line followed, for each message in order, by the author heading,
the bodies of its parts in order and the separator block; a text part's body is its text verbatim
followed by a blank line; with zero messages the output is the title heading alone; and the
two-node scenario renders to the specified string. -/
theorem composeMarkdown_format :
    (∀ (fuel : Nat) (c : Conversation),
        composeMarkdown fuel c = (GetConversationMessages fuel c).map (renderDocument c.Title))
    ∧ (∀ (title : String) (m : Message) (ms : List Message),
        renderDocument title (m :: ms)
          = "# " ++ title ++ "\n\n"
              ++ (("**" ++ m.Author ++ ":**\n\n" ++ renderParts m.Parts ++ "\n---\n\n")
                ++ renderMessages ms))
    ∧ (∀ p : Part, p.Text ≠ "" → partBody p = p.Text ++ "\n\n")
    ∧ (∀ (fuel : Nat) (c : Conversation), GetConversationMessages fuel c = some [] →
        composeMarkdown fuel c = some ("# " ++ c.Title ++ "\n\n"))
    ∧ composeMarkdown 2 scenarioConversation
        = some "# Test\n\n**user:**\n\nHi\n\n\n---\n\n**CHATGPT:**\n\nHello!\n\n\n---\n\n" := by
  have hmain : ∀ (fuel : Nat) (c : Conversation),
      composeMarkdown fuel c = (GetConversationMessages fuel c).map (renderDocument c.Title) := by
    intro fuel c
    unfold composeMarkdown
    cases GetConversationMessages fuel c with
    | none => rfl
    | some messages =>
      simp only [Option.map_some', foldl_writeMessage, renderDocument, String.empty_append]
  refine ⟨hmain, ?_, ?_, ?_, by decide⟩
  · intro title m ms
    rfl
  · intro p hp
    simp [partBody, writePart, hp]
  · intro fuel c h
    rw [hmain, h]
    simp [renderDocument, renderMessages]

theorem composeMarkdown_format_witness :
    partBody ⟨"Hi", "", none⟩ = "Hi" ++ "\n\n" :=
  composeMarkdown_format.2.2.1 ⟨"Hi", "", none⟩ (by decide)

/-- C2: every message that `GetConversationMessages` emits carries the remap of the role of the
node it comes from (`CHATGPT` for `assistant` and `tool`, `Custom User Info` for `system` with the
user-system flag, the role itself otherwise): a visit either emits nothing or appends exactly the
remapped author with the normalized parts of the visited node's message, and every message of the
output comes from such a node. -/
theorem emitted_author_is_remap (c : Conversation) :
    (∀ (messages : List Message) (cur : String),
        visitNode c messages cur = messages
        ∨ ∃ node msg, c.Mapping.lookup cur = some node ∧ node.Message = some msg
            ∧ visitNode c messages cur = messages ++
                [{ Author := remapAuthor msg.Author.Role msg.Metadata.IsUserSystemMessage,
                   Parts := processParts msg.Content.Parts }])
    ∧ (∀ (fuel : Nat) (out : List Message), GetConversationMessages fuel c = some out →
        ∀ m ∈ out, ∃ id node msg, c.Mapping.lookup id = some node ∧ node.Message = some msg
            ∧ m.Parts = processParts msg.Content.Parts
            ∧ m.Author = remapAuthor msg.Author.Role msg.Metadata.IsUserSystemMessage) := by
  constructor
  · intro messages cur
    rw [visitNode_eq, visitNode_nil]
    cases hl : c.Mapping.lookup cur with
    | none => left; simp
    | some node =>
      cases he : emitOf node with
      | none => left; simp [he]
      | some m =>
        right
        obtain ⟨msg, hmsg, -, -, hm⟩ := emitOf_eq_some node m he
        exact ⟨node, msg, rfl, hmsg, by simp [he, hm]⟩
  · intro fuel out hout m hm
    unfold GetConversationMessages at hout
    cases hw : walk fuel c [] c.CurrentNode with
    | none => simp [hw] at hout
    | some acc =>
      simp only [hw, Option.some.injEq] at hout
      subst hout
      rw [reverseMessages_eq_reverse, List.mem_reverse] at hm
      refine walk_invariant c
        (fun m => ∃ id node msg, c.Mapping.lookup id = some node ∧ node.Message = some msg
            ∧ m.Parts = processParts msg.Content.Parts
            ∧ m.Author = remapAuthor msg.Author.Role msg.Metadata.IsUserSystemMessage)
        ?_ fuel [] c.CurrentNode acc hw (by simp) m hm
      intro cur m₁ hmem
      obtain ⟨node, hnode, he⟩ := (mem_visitNode_nil c cur m₁).mp hmem
      obtain ⟨msg, hmsg, -, -, hmEq⟩ := emitOf_eq_some node m₁ he
      exact ⟨cur, node, msg, hnode, hmsg, by rw [hmEq], by rw [hmEq]⟩

theorem emitted_author_is_remap_witness :
    ∃ id node msg, scenarioConversation.Mapping.lookup id = some node ∧ node.Message = some msg
      ∧ (⟨"CHATGPT", [⟨"Hello!", "", none⟩]⟩ : Message).Parts = processParts msg.Content.Parts
      ∧ (⟨"CHATGPT", [⟨"Hello!", "", none⟩]⟩ : Message).Author
          = remapAuthor msg.Author.Role msg.Metadata.IsUserSystemMessage :=
  (emitted_author_is_remap scenarioConversation).2 2
    [⟨"user", [⟨"Hi", "", none⟩]⟩, ⟨"CHATGPT", [⟨"Hello!", "", none⟩]⟩] (by decide)
    ⟨"CHATGPT", [⟨"Hello!", "", none⟩]⟩ (by decide)

/-- C3 (evaluation at the failing input): a `system` message with the user-system flag false,
content type `text` and a non-empty text part is emitted, under the unchanged label `system`;
with the flag true it is emitted as `Custom User Info`. -/
theorem system_message_without_flag_is_emitted :
    GetConversationMessages 1 (systemConversation false)
        = some [⟨"system", [⟨"Be brief", "", none⟩]⟩]
    ∧ GetConversationMessages 1 (systemConversation true)
        = some [⟨"Custom User Info", [⟨"Be brief", "", none⟩]⟩] := by
  decide

/-- C4: when the parent links from the current node form the finite chain
`ids = [c_k, ..., c_1]`, `GetConversationMessages` returns (with any fuel above `k`) the direct
root-to-leaf traversal of `c_1, ..., c_k`: per node with a `text` or `multimodal` message whose
normalized parts are non-empty, the remapped author with the normalized parts; nodes without a
message emit nothing and the walk goes on through them. -/
theorem getConversationMessages_eq_directTraversal (c : Conversation) (ids : List String)
    (fuel : Nat) (hchain : IsParentChain c c.CurrentNode ids) (hfuel : ids.length < fuel) :
    GetConversationMessages fuel c = some (directTraversal c ids.reverse) := by
  unfold GetConversationMessages
  rw [walk_chain c ids c.CurrentNode [] fuel hchain hfuel]
  simp only [List.nil_append, reverseMessages_eq_reverse, directTraversal,
    List.filterMap_reverse]

theorem getConversationMessages_eq_directTraversal_witness :
    GetConversationMessages 3 scenarioConversation
      = some (directTraversal scenarioConversation ["n2", "n1"].reverse) :=
  getConversationMessages_eq_directTraversal scenarioConversation ["n2", "n1"] 3
    (by decide) (by decide)

/-- C5: when the current node id is the empty string or is not a key of the node map,
`GetConversationMessages` returns (with any fuel from one on) the empty sequence. -/
theorem getConversationMessages_empty_of_no_start (c : Conversation) (fuel : Nat)
    (hstart : c.CurrentNode = "" ∨ c.Mapping.lookup c.CurrentNode = none) (hfuel : 1 ≤ fuel) :
    GetConversationMessages fuel c = some [] := by
  have h := walk_chain c [] c.CurrentNode [] fuel hstart (by simpa using hfuel)
  unfold GetConversationMessages
  rw [h]
  rfl

theorem getConversationMessages_empty_of_no_start_witness :
    GetConversationMessages 1 { scenarioConversation with CurrentNode := "zz" } = some [] :=
  getConversationMessages_empty_of_no_start { scenarioConversation with CurrentNode := "zz" } 1
    (by decide) (by decide)

/-- C6: a node whose message has a content type other than `text` and `multimodal` contributes
no message: visiting it leaves the accumulator unchanged, whatever its parts normalize to, and
the output of `GetConversationMessages` is the one of the conversation in which that node has no
message. -/
theorem other_content_type_contributes_nothing (c : Conversation) (id : String)
    (node : ConversationNode) (msg : MessageData)
    (hnode : c.Mapping.lookup id = some node) (hmsg : node.Message = some msg)
    (hct : ¬ (msg.Content.ContentType = "text" ∨ msg.Content.ContentType = "multimodal")) :
    (∀ messages : List Message, visitNode c messages id = messages)
    ∧ (∀ fuel : Nat,
        GetConversationMessages fuel c = GetConversationMessages fuel (clearMessage c id)) := by
  constructor
  · intro messages
    simp [visitNode, hnode, hmsg, hct]
  · intro fuel
    unfold GetConversationMessages
    rw [walk_clearMessage c id node msg hnode hmsg hct]
    rfl

theorem other_content_type_contributes_nothing_witness :
    processParts [PartData.ofString "a picture"] ≠ []
    ∧ (∀ messages : List Message, visitNode imageConversation messages "img" = messages)
    ∧ (∀ fuel : Nat, GetConversationMessages fuel imageConversation
        = GetConversationMessages fuel (clearMessage imageConversation "img")) :=
  ⟨by decide,
   other_content_type_contributes_nothing imageConversation "img"
    { Message := some { Author := ⟨"user"⟩,
                        Content := ⟨"image", [PartData.ofString "a picture"]⟩,
                        Metadata := ⟨false⟩ },
      Parent := "n1" }
    { Author := ⟨"user"⟩, Content := ⟨"image", [PartData.ofString "a picture"]⟩,
      Metadata := ⟨false⟩ }
    (by decide) rfl (by decide)⟩

/-- C7: a raw part whose text field is non-empty makes `processParts` emit exactly one part, the
text part carrying that text with no transcript and no asset, at the part's place in the output,
whatever its content type and asset pointer fields are. -/
theorem text_part_emitted_verbatim (p : PartData) (xs ys : List PartData) (hText : p.Text ≠ "") :
    processParts [p] = [{ Text := p.Text, Transcript := "", Asset := none }]
    ∧ processParts (xs ++ p :: ys)
        = processParts xs ++ { Text := p.Text, Transcript := "", Asset := none }
            :: processParts ys := by
  refine ⟨processParts_text p hText, ?_⟩
  rw [processParts_append, processParts_cons, processParts_text p hText]
  rfl

theorem text_part_emitted_verbatim_witness :
    processParts [{ ContentType := "audio_transcription", Text := "spoken words",
                    AudioAssetPointer := some ⟨7⟩, VideoContainerAssetPointer := none,
                    FrameAssetPointers := [some ⟨8⟩] }]
      = [{ Text := "spoken words", Transcript := "", Asset := none }] :=
  (text_part_emitted_verbatim
    { ContentType := "audio_transcription", Text := "spoken words",
      AudioAssetPointer := some ⟨7⟩, VideoContainerAssetPointer := none,
      FrameAssetPointers := [some ⟨8⟩] } [] [] (by decide)).1

/-- C8: a raw part with empty text and content type `real_time_user_audio_video_asset_pointer`
makes `processParts` emit only asset references, in this order: the audio pointer if present, the
video pointer if present, then the non-null frame pointers in sequence order; their number is
the sum of the three counts; and frame pointers `[ptrA, null, ptrB]` alone give exactly the two
references `ptrA`, `ptrB`. -/
theorem realtime_part_emits_asset_refs (p : PartData) (xs ys : List PartData)
    (hText : p.Text = "")
    (hct : p.ContentType = "real_time_user_audio_video_asset_pointer") :
    processParts [p]
        = (p.AudioAssetPointer.toList ++ p.VideoContainerAssetPointer.toList
            ++ p.FrameAssetPointers.filterMap id).map assetRef
    ∧ processParts (xs ++ p :: ys)
        = processParts xs
            ++ (p.AudioAssetPointer.toList ++ p.VideoContainerAssetPointer.toList
                ++ p.FrameAssetPointers.filterMap id).map assetRef
            ++ processParts ys
    ∧ (processParts [p]).length
        = (if p.AudioAssetPointer.isSome then 1 else 0)
          + (if p.VideoContainerAssetPointer.isSome then 1 else 0)
          + p.FrameAssetPointers.countP (fun f => f.isSome)
    ∧ (∀ ptrA ptrB : AssetPointer,
        processParts [{ ContentType := "real_time_user_audio_video_asset_pointer", Text := "",
                        AudioAssetPointer := none, VideoContainerAssetPointer := none,
                        FrameAssetPointers := [some ptrA, none, some ptrB] }]
          = [assetRef ptrA, assetRef ptrB]) := by
  have hp := processParts_realtime p hText hct
  refine ⟨hp, ?_, ?_, ?_⟩
  · rw [processParts_append, processParts_cons, hp]
    simp only [List.append_assoc]
  · rw [hp]
    have hframes : ∀ fs : List (Option AssetPointer),
        (fs.filterMap id).length = fs.countP (fun f => f.isSome) := by
      intro fs
      induction fs with
      | nil => rfl
      | cons f t ih => cases f <;> simp [ih]
    cases p.AudioAssetPointer <;> cases p.VideoContainerAssetPointer <;>
      simp [hframes] <;> omega
  · intro ptrA ptrB
    rw [processParts_realtime _ rfl rfl]
    rfl

theorem realtime_part_emits_asset_refs_witness :
    processParts [{ ContentType := "real_time_user_audio_video_asset_pointer", Text := "",
                    AudioAssetPointer := some ⟨1⟩, VideoContainerAssetPointer := none,
                    FrameAssetPointers := [some ⟨2⟩, none, some ⟨3⟩] }]
      = [assetRef ⟨1⟩, assetRef ⟨2⟩, assetRef ⟨3⟩] :=
  (realtime_part_emits_asset_refs
    { ContentType := "real_time_user_audio_video_asset_pointer", Text := "",
      AudioAssetPointer := some ⟨1⟩, VideoContainerAssetPointer := none,
      FrameAssetPointers := [some ⟨2⟩, none, some ⟨3⟩] } [] [] rfl rfl).1

/-- C9 (counterexample): the part that `processParts` emits for an `audio_transcription` raw part
with empty text is not written as the `[Transcript]` line, a newline and a blank line: the
renderer writes nothing for it, and the whole message is rendered as its heading and the
separator. -/
theorem empty_transcript_not_rendered :
    ¬ (∀ (p : PartData) (q : Part) (sb : String),
        p.ContentType = "audio_transcription" → q ∈ processParts [p] → q.Text = "" →
          writePart sb q = sb ++ ("[Transcript]\n" ++ q.Transcript ++ "\n\n"))
    ∧ composeMarkdown 1 transcriptConversation = some "# T\n\n**user:**\n\n\n---\n\n" := by
  refine ⟨?_, by decide⟩
  intro h
  have h0 := h { ContentType := "audio_transcription", Text := "", AudioAssetPointer := none,
                 VideoContainerAssetPointer := none, FrameAssetPointers := [] }
    { Text := "", Transcript := "", Asset := none } "" rfl (by decide) rfl
  revert h0
  decide

/-- C9 (amended): for every part with empty text and a non-empty transcript the renderer writes
the line `[Transcript]`, a newline, the transcript verbatim and a blank line; the part that
`processParts` emits for an `audio_transcription` raw part with empty text has an empty
transcript, and for it the renderer writes nothing. -/
theorem transcript_part_rendering (q : Part) (sb : String) (hText : q.Text = "") :
    (q.Transcript ≠ "" →
        writePart sb q = sb ++ ("[Transcript]\n" ++ q.Transcript ++ "\n\n"))
    ∧ (∀ p : PartData, p.Text = "" → p.ContentType = "audio_transcription" →
        processParts [p] = [{ Text := "", Transcript := "", Asset := none }])
    ∧ writePart sb { Text := "", Transcript := "", Asset := none } = sb := by
  refine ⟨?_, ?_, ?_⟩
  · intro ht
    simp [writePart, hText, ht]
  · intro p hp hct
    exact processParts_transcription p hp hct
  · simp [writePart]

theorem transcript_part_rendering_witness :
    writePart "x" { Text := "", Transcript := "hello", Asset := none }
      = "x" ++ ("[Transcript]\n" ++ "hello" ++ "\n\n") :=
  (transcript_part_rendering { Text := "", Transcript := "hello", Asset := none } "x" rfl).1
    (by decide)

/-- C10: for every asset reference that `processParts` emits the renderer writes exactly
`[File]: [asset_pointer]` and a blank line, whatever the reference holds; the raw parts of the
three asset-pointer content types emit one such reference wrapping the raw part, and every part
emitted for a `real_time_user_audio_video_asset_pointer` raw part is such a reference. -/
theorem asset_ref_rendering :
    (∀ (parts : List PartData) (q : Part), q ∈ processParts parts → q.Asset ≠ none →
        ∀ sb : String, writePart sb q = sb ++ "[File]: [asset_pointer]\n\n")
    ∧ (∀ p : PartData, p.Text = "" →
        (p.ContentType = "audio_asset_pointer" ∨ p.ContentType = "image_asset_pointer"
          ∨ p.ContentType = "video_container_asset_pointer") →
        processParts [p] = [{ Text := "", Transcript := "", Asset := some (AssetValue.part p) }])
    ∧ (∀ p : PartData, p.Text = "" →
        p.ContentType = "real_time_user_audio_video_asset_pointer" →
        ∀ q ∈ processParts [p], q.Asset ≠ none) := by
  refine ⟨?_, ?_, ?_⟩
  · intro parts q hq ha sb
    obtain ⟨h1, h2⟩ := asset_part_fields hq ha
    simp [writePart, h1, h2, ha]
  · intro p hp hct
    exact processParts_pointer p hp hct
  · intro p hp hct q hq
    rw [processParts_realtime p hp hct, List.mem_map] at hq
    obtain ⟨a, -, rfl⟩ := hq
    simp [assetRef]

theorem asset_ref_rendering_witness :
    writePart "x" (assetRef ⟨5⟩) = "x" ++ "[File]: [asset_pointer]\n\n" :=
  asset_ref_rendering.1
    [{ ContentType := "real_time_user_audio_video_asset_pointer", Text := "",
       AudioAssetPointer := none, VideoContainerAssetPointer := some ⟨5⟩,
       FrameAssetPointers := [] }]
    (assetRef ⟨5⟩) (by decide) (by decide) "x"

/-! ## Lemmas on the limit -/

theorem effectiveLimit_eq (limit : Int) (n : Nat) :
    effectiveLimit limit n = if limit = 0 ∨ (n : Int) < limit then (n : Int) else limit := by
  unfold effectiveLimit
  by_cases h0 : limit = 0
  · simp [h0]
  · simp [h0]

theorem conversationsToProcess_of_nonneg (limit : Int) (conversations : List Conversation)
    (h : 0 ≤ limit) :
    conversationsToProcess limit conversations
      = some (conversations.take
          (if limit = 0 ∨ (conversations.length : Int) < limit then conversations.length
           else limit.toNat)) := by
  unfold conversationsToProcess sliceTo
  rw [effectiveLimit_eq]
  by_cases hc : limit = 0 ∨ (conversations.length : Int) < limit
  · simp [hc]
  · have hle : limit ≤ (conversations.length : Int) := by
      by_contra hlt
      exact hc (Or.inr (by omega))
    simp [hc, h, hle]

theorem conversationsToProcess_of_neg (limit : Int) (conversations : List Conversation)
    (h : limit < 0) : conversationsToProcess limit conversations = none := by
  unfold conversationsToProcess sliceTo effectiveLimit
  have h0 : ¬ limit = 0 := by omega
  have h1 : ¬ ((conversations.length : Int) < limit) := by omega
  have h2 : ¬ (0 ≤ limit) := by omega
  simp [h0, h1, h2]

/-! ## Claims on the limit and on `processParts` -/

/-- C11 (evaluation at the failing input): with two conversations, the limit 0 and a limit above
their number select both, the limit 1 selects the first, and the limit -1 makes the slice
expression `conversations[:limit]` panic, so that no conversation is processed. -/
theorem negative_limit_panics :
    conversationsToProcess (-1) [scenarioConversation, imageConversation] = none
    ∧ conversationsToProcess 0 [scenarioConversation, imageConversation]
        = some [scenarioConversation, imageConversation]
    ∧ conversationsToProcess 1 [scenarioConversation, imageConversation]
        = some [scenarioConversation]
    ∧ conversationsToProcess 5 [scenarioConversation, imageConversation]
        = some [scenarioConversation, imageConversation] := by
  decide

/-- C12: `processParts` works part by part and keeps the input order: it maps the empty list to
the empty list, distributes over concatenation, and its output is the in-order concatenation of
what each single part emits. -/
theorem processParts_partwise :
    processParts [] = []
    ∧ (∀ xs ys : List PartData, processParts (xs ++ ys) = processParts xs ++ processParts ys)
    ∧ (∀ parts : List PartData,
        processParts parts = parts.flatMap (fun p => processParts [p])) :=
  ⟨rfl, processParts_append, processParts_eq_flatMap⟩

/-- C13: a raw part with empty text whose content type is none of `audio_transcription`,
`audio_asset_pointer`, `image_asset_pointer`, `video_container_asset_pointer` and
`real_time_user_audio_video_asset_pointer` makes `processParts` emit nothing, alone and at its
place in any part list, whatever asset pointer fields it carries. -/
theorem unknown_content_type_emits_nothing (p : PartData) (xs ys : List PartData)
    (hText : p.Text = "")
    (h1 : p.ContentType ≠ "audio_transcription")
    (h2 : p.ContentType ≠ "audio_asset_pointer")
    (h3 : p.ContentType ≠ "image_asset_pointer")
    (h4 : p.ContentType ≠ "video_container_asset_pointer")
    (h5 : p.ContentType ≠ "real_time_user_audio_video_asset_pointer") :
    processParts [p] = []
    ∧ processParts (xs ++ p :: ys) = processParts xs ++ processParts ys := by
  have hp : processParts [p] = [] :=
    processParts_other p hText h1 (by simp [h2, h3, h4]) h5
  refine ⟨hp, ?_⟩
  rw [processParts_append, processParts_cons, hp, List.nil_append]

theorem unknown_content_type_emits_nothing_witness :
    processParts [{ ContentType := "", Text := "", AudioAssetPointer := some ⟨1⟩,
                    VideoContainerAssetPointer := some ⟨2⟩,
                    FrameAssetPointers := [some ⟨3⟩] }] = [] :=
  (unknown_content_type_emits_nothing
    { ContentType := "", Text := "", AudioAssetPointer := some ⟨1⟩,
      VideoContainerAssetPointer := some ⟨2⟩, FrameAssetPointers := [some ⟨3⟩] } [] []
    rfl (by decide) (by decide) (by decide) (by decide) (by decide)).1

/-- C14 (counterexample): the part that `processParts` emits for an `audio_transcription` raw
part with empty text has no populated field, so not every emitted part has exactly one. -/
theorem empty_transcript_part_has_no_populated_field :
    processParts [transcriptionPart ""] = [{ Text := "", Transcript := "", Asset := none }]
    ∧ populatedCount { Text := "", Transcript := "", Asset := none } = 0
    ∧ ¬ (∀ (parts : List PartData) (q : Part), q ∈ processParts parts → populatedCount q = 1) := by
  refine ⟨by decide, by decide, ?_⟩
  intro h
  have h0 := h [transcriptionPart ""] { Text := "", Transcript := "", Asset := none } (by decide)
  revert h0
  decide

/-- C14 (amended): every part that `processParts` emits has at most one populated field among
text, transcript and asset; it has exactly one unless it is the part emitted for an
`audio_transcription` raw part with empty text, which has none. -/
theorem populated_fields_of_emitted_part (parts : List PartData) (q : Part)
    (hq : q ∈ processParts parts) :
    populatedCount q ≤ 1
    ∧ (populatedCount q = 1
        ∨ (q = { Text := "", Transcript := "", Asset := none }
            ∧ ∃ p ∈ parts, p.Text = "" ∧ p.ContentType = "audio_transcription")) := by
  obtain ⟨p, hp, hq⟩ := mem_processParts hq
  by_cases ht : p.Text = ""
  · by_cases h1 : p.ContentType = "audio_transcription"
    · rw [processParts_transcription p ht h1, List.mem_singleton] at hq
      subst hq
      exact ⟨by decide, Or.inr ⟨rfl, p, hp, ht, h1⟩⟩
    · by_cases h2 : p.ContentType = "audio_asset_pointer" ∨ p.ContentType = "image_asset_pointer"
          ∨ p.ContentType = "video_container_asset_pointer"
      · rw [processParts_pointer p ht h2, List.mem_singleton] at hq
        subst hq
        have : populatedCount { Text := "", Transcript := "", Asset := some (AssetValue.part p) }
            = 1 := by simp [populatedCount]
        exact ⟨by omega, Or.inl this⟩
      · by_cases h3 : p.ContentType = "real_time_user_audio_video_asset_pointer"
        · rw [processParts_realtime p ht h3, List.mem_map] at hq
          obtain ⟨a, -, rfl⟩ := hq
          have : populatedCount (assetRef a) = 1 := by simp [populatedCount, assetRef]
          exact ⟨by omega, Or.inl this⟩
        · rw [processParts_other p ht h1 h2 h3] at hq
          simp at hq
  · rw [processParts_text p ht, List.mem_singleton] at hq
    subst hq
    have : populatedCount { Text := p.Text, Transcript := "", Asset := none } = 1 := by
      simp [populatedCount, ht]
    exact ⟨by omega, Or.inl this⟩

theorem populated_fields_of_emitted_part_witness :
    populatedCount { Text := "Hi", Transcript := "", Asset := none } ≤ 1
    ∧ (populatedCount { Text := "Hi", Transcript := "", Asset := none } = 1
        ∨ (({ Text := "Hi", Transcript := "", Asset := none } : Part)
              = { Text := "", Transcript := "", Asset := none }
            ∧ ∃ p ∈ [PartData.ofString "Hi", transcriptionPart ""],
                p.Text = "" ∧ p.ContentType = "audio_transcription")) :=
  populated_fields_of_emitted_part [PartData.ofString "Hi", transcriptionPart ""]
    { Text := "Hi", Transcript := "", Asset := none } (by decide)

/-! ## Lemmas on the cursor of the walk -/

theorem cursorAfter_succ (c : Conversation) (n : Nat) :
    cursorAfter c (n + 1) = parentOf c (cursorAfter c n) := by
  unfold cursorAfter
  rw [Function.iterate_succ_apply']

theorem cursorAfter_add (c : Conversation) (m n : Nat) :
    cursorAfter c (m + n) = (parentOf c)^[m] (cursorAfter c n) := by
  unfold cursorAfter
  rw [Function.iterate_add_apply]

theorem walk_empty_cursor (c : Conversation) (fuel : Nat) (messages : List Message) :
    walk fuel c messages "" = some messages := by
  cases fuel <;> simp [walk]

theorem walk_none_of_cursor (c : Conversation) :
    ∀ (fuel : Nat) (cur : String) (messages : List Message),
      (∀ k, k ≤ fuel → (parentOf c)^[k] cur ≠ "") → walk fuel c messages cur = none := by
  intro fuel
  induction fuel with
  | zero =>
    intro cur messages h
    have h0 : cur ≠ "" := h 0 (Nat.le_refl 0)
    rw [walk, if_pos h0]
  | succ n ih =>
    intro cur messages h
    have h0 : cur ≠ "" := h 0 (Nat.zero_le _)
    rw [walk, if_pos h0]
    apply ih
    intro k hk
    have := h (k + 1) (by omega)
    rwa [Function.iterate_succ_apply] at this

theorem isParentChain_empty_cursor (c : Conversation) (ids : List String)
    (h : IsParentChain c "" ids) : ids = [] := by
  cases ids with
  | nil => rfl
  | cons id rest =>
    obtain ⟨h1, h2, -⟩ := h
    exact absurd h1.symm h2

theorem chain_of_cursor_empty (c : Conversation) :
    ∀ (k : Nat) (cur : String), (parentOf c)^[k] cur = "" →
      ∃ ids, IsParentChain c cur ids ∧ ids.length ≤ k
        ∧ ∀ (messages : List Message) (fuel : Nat), k ≤ fuel →
            walk fuel c messages cur
              = some (messages
                  ++ ids.filterMap (fun id => (c.Mapping.lookup id).bind emitOf)) := by
  intro k
  induction k with
  | zero =>
    intro cur h
    have hcur : cur = "" := h
    subst hcur
    refine ⟨[], Or.inl rfl, Nat.le_refl _, ?_⟩
    intro messages fuel _
    simp [walk_empty_cursor]
  | succ n ih =>
    intro cur h
    rw [Function.iterate_succ_apply] at h
    obtain ⟨ids, hchain, hlen, hwalk⟩ := ih (parentOf c cur) h
    by_cases he : cur = ""
    · subst he
      refine ⟨[], Or.inl rfl, Nat.zero_le _, ?_⟩
      intro messages fuel _
      simp [walk_empty_cursor]
    · cases hl : c.Mapping.lookup cur with
      | none =>
        have hp : parentOf c cur = "" := by simp [parentOf, hl]
        rw [hp] at hchain hwalk
        have hids := isParentChain_empty_cursor c ids hchain
        subst hids
        refine ⟨[], Or.inr hl, Nat.zero_le _, ?_⟩
        intro messages fuel hfuel
        cases fuel with
        | zero => omega
        | succ f =>
          have hv : visitNode c messages cur = messages := by simp [visitNode, hl]
          rw [walk, if_pos he, hv, hp, hwalk messages f (by omega)]
      | some node =>
        refine ⟨cur :: ids, ⟨rfl, he, by simp [hl], hchain⟩, by simp only [List.length_cons]; omega,
          ?_⟩
        intro messages fuel hfuel
        cases fuel with
        | zero => omega
        | succ f =>
          rw [walk, if_pos he, hwalk _ f (by omega), visitNode_eq, visitNode_nil]
          cases hb : (c.Mapping.lookup cur).bind emitOf <;> simp [hb]

theorem mem_keys_of_lookup {l : List (String × ConversationNode)} {k : String}
    {node : ConversationNode} (h : l.lookup k = some node) : k ∈ l.map Prod.fst := by
  induction l with
  | nil => simp at h
  | cons kv rest ih =>
    obtain ⟨a, n⟩ := kv
    by_cases hka : k = a
    · simp [hka]
    · have hbeq : (k == a) = false := by simpa using hka
      rw [List.lookup_cons] at h
      simp only [hbeq] at h
      simp [ih h]

theorem mem_keys_of_parentOf_ne (c : Conversation) (cur : String)
    (h : parentOf c cur ≠ "") : cur ∈ c.Mapping.map Prod.fst := by
  unfold parentOf at h
  cases hl : c.Mapping.lookup cur with
  | none => simp [hl] at h
  | some node => exact mem_keys_of_lookup hl

theorem exists_cursor_empty (c : Conversation) (h : NoRevisit c) :
    ∃ k, k ≤ nodeCount c + 1 ∧ cursorAfter c k = "" := by
  by_contra hcon
  have hall : ∀ k, k ≤ nodeCount c + 1 → cursorAfter c k ≠ "" := by
    intro k hk hk0
    exact hcon ⟨k, hk, hk0⟩
  have hcard := Finset.card_le_card_of_injOn (s := Finset.range (nodeCount c + 1))
    (t := (c.Mapping.map Prod.fst).toFinset) (cursorAfter c) ?_ ?_
  · rw [Finset.card_range, List.card_toFinset] at hcard
    unfold nodeCount at hcard
    omega
  · intro k hk
    have hk₁ : k < nodeCount c + 1 := by simpa using hk
    rw [List.mem_toFinset]
    apply mem_keys_of_parentOf_ne
    rw [← cursorAfter_succ]
    exact hall (k + 1) (by omega)
  · intro i hi j hj hij
    have hi₁ : i < nodeCount c + 1 := by simpa using hi
    have hj₁ : j < nodeCount c + 1 := by simpa using hj
    rcases Nat.lt_trichotomy i j with hlt | heq | hgt
    · exact absurd hij (h i j hlt (fun k hk => hall k (by omega)))
    · exact heq
    · exact absurd hij.symm (h j i hgt (fun k hk => hall k (by omega)))

theorem cursor_ne_of_revisit (c : Conversation) (i j : Nat) (hij : i < j)
    (hrev : cursorAfter c i = cursorAfter c j) (hne : ∀ k, k ≤ j → cursorAfter c k ≠ "") :
    ∀ n, cursorAfter c n ≠ "" := by
  intro n
  induction n using Nat.strong_induction_on with
  | _ n ih =>
    by_cases hn : n ≤ j
    · exact hne n hn
    · have hsplit : n = (n - j) + j := by omega
      have hstep : cursorAfter c n = cursorAfter c ((n - j) + i) := by
        rw [cursorAfter_add c (n - j) i, hrev, ← cursorAfter_add, ← hsplit]
      rw [hstep]
      exact ih _ (by omega)

theorem getConversationMessages_none_of_cursor (c : Conversation)
    (h : ∀ n, cursorAfter c n ≠ "") (fuel : Nat) :
    GetConversationMessages fuel c = none ∧ composeMarkdown fuel c = none := by
  have hw : walk fuel c [] c.CurrentNode = none :=
    walk_none_of_cursor c fuel c.CurrentNode [] (fun k _ => h k)
  have hg : GetConversationMessages fuel c = none := by
    unfold GetConversationMessages
    rw [hw]
  refine ⟨hg, ?_⟩
  unfold composeMarkdown
  simp only [hg]

/-! ## Claims on termination -/

/-- C15: when the parent chain from the current node never revisits a node id, the upward walk
stops after at most (number of nodes in the map) + 1 iterations: it has visited the chain of
non-empty ids present in the map up to the first cursor that is empty or missing from the map,
and `GetConversationMessages` returns, with any fuel from that number of iterations on, the
messages of the chain; a cursor missing from the map ends the walk and the messages collected
so far are returned. -/
theorem walk_terminates_within_node_count (c : Conversation) (hacyclic : NoRevisit c) :
    (∃ (steps : Nat) (ids : List String),
        steps ≤ nodeCount c + 1 ∧ cursorAfter c steps = ""
        ∧ IsParentChain c c.CurrentNode ids ∧ ids.length ≤ steps
        ∧ ∀ fuel, steps ≤ fuel →
            GetConversationMessages fuel c = some (directTraversal c ids.reverse))
    ∧ (∀ (messages : List Message) (cur : String) (fuel : Nat),
        c.Mapping.lookup cur = none → walk (fuel + 1) c messages cur = some messages) := by
  constructor
  · obtain ⟨k, hk, hk0⟩ := exists_cursor_empty c hacyclic
    obtain ⟨ids, hchain, hlen, hwalk⟩ := chain_of_cursor_empty c k c.CurrentNode hk0
    refine ⟨k, ids, hk, hk0, hchain, hlen, ?_⟩
    intro fuel hfuel
    unfold GetConversationMessages
    rw [hwalk [] fuel hfuel]
    simp only [List.nil_append, reverseMessages_eq_reverse, directTraversal,
      List.filterMap_reverse]
  · intro messages cur fuel hl
    have h := walk_chain c [] cur messages (fuel + 1) (Or.inr hl) (by simp)
    simpa using h

theorem walk_terminates_within_node_count_witness :
    (∃ (steps : Nat) (ids : List String),
        steps ≤ nodeCount scenarioConversation + 1 ∧ cursorAfter scenarioConversation steps = ""
        ∧ IsParentChain scenarioConversation scenarioConversation.CurrentNode ids
        ∧ ids.length ≤ steps
        ∧ ∀ fuel, steps ≤ fuel →
            GetConversationMessages fuel scenarioConversation
              = some (directTraversal scenarioConversation ids.reverse))
    ∧ (∀ (messages : List Message) (cur : String) (fuel : Nat),
        scenarioConversation.Mapping.lookup cur = none →
          walk (fuel + 1) scenarioConversation messages cur = some messages) :=
  walk_terminates_within_node_count scenarioConversation (by
    intro i j hij hne
    have hj : j < 2 := by
      by_contra hge
      exact hne 2 (by omega) (by decide)
    have hi0 : i = 0 := by omega
    have hj1 : j = 1 := by omega
    subst hi0
    subst hj1
    decide)

/-- C17: no cycle detection is performed: when the parent links return to an already visited
node (cursor `j` equals an earlier cursor `i`, none of the cursors up to `j` being empty), and in
particular when the current node `a` is a key of the map and is its own parent, the cursor is
non-empty after every number of steps and `GetConversationMessages`, hence `composeMarkdown`,
returns with no amount of fuel. -/
theorem revisiting_walk_never_returns :
    (∀ (c : Conversation) (i j : Nat), i < j → cursorAfter c i = cursorAfter c j →
        (∀ k, k ≤ j → cursorAfter c k ≠ "") →
        (∀ n, cursorAfter c n ≠ "")
        ∧ ∀ fuel, GetConversationMessages fuel c = none ∧ composeMarkdown fuel c = none)
    ∧ (∀ (c : Conversation) (node : ConversationNode), c.CurrentNode = "a" →
        c.Mapping.lookup "a" = some node → node.Parent = "a" →
        (∀ n, cursorAfter c n = "a")
        ∧ ∀ fuel, GetConversationMessages fuel c = none ∧ composeMarkdown fuel c = none) := by
  constructor
  · intro c i j hij hrev hne
    have hall := cursor_ne_of_revisit c i j hij hrev hne
    exact ⟨hall, getConversationMessages_none_of_cursor c hall⟩
  · intro c node hcur hnode hparent
    have hp : parentOf c "a" = "a" := by simp [parentOf, hnode, hparent]
    have hall : ∀ n, cursorAfter c n = "a" := by
      intro n
      induction n with
      | zero => exact hcur
      | succ m ih => rw [cursorAfter_succ, ih, hp]
    refine ⟨hall, getConversationMessages_none_of_cursor c ?_⟩
    intro n
    rw [hall n]
    decide

theorem revisiting_walk_never_returns_witness :
    (∀ n, cursorAfter selfLoopConversation n = "a")
    ∧ ∀ fuel, GetConversationMessages fuel selfLoopConversation = none
        ∧ composeMarkdown fuel selfLoopConversation = none :=
  revisiting_walk_never_returns.2 selfLoopConversation
    { Message := some { Author := ⟨"user"⟩, Content := ⟨"text", [PartData.ofString "Hi"]⟩,
                        Metadata := ⟨false⟩ },
      Parent := "a" }
    rfl (by decide) rfl

/-! ## Claims on emitted messages, transcripts and file names -/

theorem transcript_empty_of_mem {parts : List PartData} {q : Part}
    (hq : q ∈ processParts parts) : q.Transcript = "" := by
  obtain ⟨p, -, hq⟩ := mem_processParts hq
  by_cases ht : p.Text = ""
  · by_cases h1 : p.ContentType = "audio_transcription"
    · rw [processParts_transcription p ht h1, List.mem_singleton] at hq
      rw [hq]
    · by_cases h2 : p.ContentType = "audio_asset_pointer" ∨ p.ContentType = "image_asset_pointer"
          ∨ p.ContentType = "video_container_asset_pointer"
      · rw [processParts_pointer p ht h2, List.mem_singleton] at hq
        rw [hq]
      · by_cases h3 : p.ContentType = "real_time_user_audio_video_asset_pointer"
        · rw [processParts_realtime p ht h3, List.mem_map] at hq
          obtain ⟨a, -, rfl⟩ := hq
          rfl
        · rw [processParts_other p ht h1 h2 h3] at hq
          simp at hq
  · rw [processParts_text p ht, List.mem_singleton] at hq
    rw [hq]

theorem output_invariant (c : Conversation) (P : Message → Prop)
    (hstep : ∀ cur m, m ∈ visitNode c [] cur → P m) (fuel : Nat) (out : List Message)
    (hout : GetConversationMessages fuel c = some out) : ∀ m ∈ out, P m := by
  intro m hm
  unfold GetConversationMessages at hout
  cases hw : walk fuel c [] c.CurrentNode with
  | none => simp [hw] at hout
  | some acc =>
    simp only [hw, Option.some.injEq] at hout
    subst hout
    rw [reverseMessages_eq_reverse, List.mem_reverse] at hm
    exact walk_invariant c P hstep fuel [] c.CurrentNode acc hw (by simp) m hm

theorem processParts_all_transcription (parts : List PartData)
    (h : ∀ p ∈ parts, p.ContentType = "audio_transcription" ∧ p.Text = "") :
    processParts parts
      = List.replicate parts.length { Text := "", Transcript := "", Asset := none } := by
  induction parts with
  | nil => rfl
  | cons p ps ih =>
    have hp := h p (List.mem_cons_self _ _)
    rw [processParts_cons, processParts_transcription p hp.2 hp.1,
      ih (fun x hx => h x (List.mem_cons_of_mem _ hx))]
    rfl

theorem renderParts_replicate_empty (n : Nat) :
    renderParts (List.replicate n { Text := "", Transcript := "", Asset := none }) = "" := by
  induction n with
  | zero => rfl
  | succ k ih =>
    rw [List.replicate_succ, renderParts, ih]
    decide

/-- C16: every message in the output of `GetConversationMessages` has a non-empty parts list,
which is `processParts` of the content parts of a node of the map; and a visited message whose
parts normalize to nothing (in particular one with no parts) appends nothing. -/
theorem emitted_parts_nonempty (c : Conversation) :
    (∀ (fuel : Nat) (out : List Message), GetConversationMessages fuel c = some out →
        ∀ m ∈ out, m.Parts ≠ []
          ∧ ∃ id node msg, c.Mapping.lookup id = some node ∧ node.Message = some msg
              ∧ m.Parts = processParts msg.Content.Parts)
    ∧ (∀ (messages : List Message) (cur : String) (node : ConversationNode) (msg : MessageData),
        c.Mapping.lookup cur = some node → node.Message = some msg →
        processParts msg.Content.Parts = [] → visitNode c messages cur = messages)
    ∧ (∀ (messages : List Message) (cur : String) (node : ConversationNode) (msg : MessageData),
        c.Mapping.lookup cur = some node → node.Message = some msg →
        msg.Content.Parts = [] → visitNode c messages cur = messages) := by
  have hnorm : ∀ (messages : List Message) (cur : String) (node : ConversationNode)
      (msg : MessageData), c.Mapping.lookup cur = some node → node.Message = some msg →
      processParts msg.Content.Parts = [] → visitNode c messages cur = messages := by
    intro messages cur node msg hnode hmsg hp
    simp [visitNode, hnode, hmsg, hp]
  refine ⟨?_, hnorm, ?_⟩
  · intro fuel out hout
    refine output_invariant c _ ?_ fuel out hout
    intro cur m hm
    obtain ⟨node, hnode, he⟩ := (mem_visitNode_nil c cur m).mp hm
    obtain ⟨msg, hmsg, -, hne, hm₁⟩ := emitOf_eq_some node m he
    subst hm₁
    exact ⟨hne, cur, node, msg, hnode, hmsg, rfl⟩
  · intro messages cur node msg hnode hmsg hp
    refine hnorm messages cur node msg hnode hmsg ?_
    rw [hp]
    rfl

theorem emitted_parts_nonempty_witness :
    (⟨"user", [⟨"Hi", "", none⟩]⟩ : Message).Parts ≠ []
    ∧ ∃ id node msg, scenarioConversation.Mapping.lookup id = some node
        ∧ node.Message = some msg
        ∧ (⟨"user", [⟨"Hi", "", none⟩]⟩ : Message).Parts = processParts msg.Content.Parts :=
  (emitted_parts_nonempty scenarioConversation).1 2
    [⟨"user", [⟨"Hi", "", none⟩]⟩, ⟨"CHATGPT", [⟨"Hello!", "", none⟩]⟩] (by decide)
    ⟨"user", [⟨"Hi", "", none⟩]⟩ (by decide)

/-- C18 (counterexample): a `text` message whose only part is an `audio_transcription` part with
the text `spoken` is rendered with the body `spoken`, not as a heading with no body; and a
message of content type `audio` whose only part is an `audio_transcription` part is not emitted
at all. -/
theorem transcription_message_rendered_with_body :
    composeMarkdown 1 (spokenConversation "text" "spoken")
        = some "# T\n\n**user:**\n\nspoken\n\n\n---\n\n"
    ∧ composeMarkdown 1 (spokenConversation "text" "spoken")
        ≠ some "# T\n\n**user:**\n\n\n---\n\n"
    ∧ GetConversationMessages 1 (spokenConversation "audio" "") = some [] := by
  decide

/-- C18 (amended): every part in the output of `processParts` has an empty transcript field, so
no part of a message in the output of `GetConversationMessages` meets the condition of the
`[Transcript]` branch of the renderer; and a message of content type `text` or `multimodal`
with at least one part, all of whose parts are `audio_transcription` parts with empty text, is
emitted and written as its author heading followed directly by the separator. -/
theorem transcript_field_always_empty :
    (∀ (parts : List PartData) (q : Part), q ∈ processParts parts → q.Transcript = "")
    ∧ (∀ (c : Conversation) (fuel : Nat) (out : List Message),
        GetConversationMessages fuel c = some out →
        ∀ m ∈ out, ∀ q ∈ m.Parts, ¬ (q.Text = "" ∧ q.Transcript ≠ ""))
    ∧ (∀ (c : Conversation) (messages : List Message) (cur : String) (node : ConversationNode)
        (msg : MessageData),
        c.Mapping.lookup cur = some node → node.Message = some msg →
        (msg.Content.ContentType = "text" ∨ msg.Content.ContentType = "multimodal") →
        msg.Content.Parts ≠ [] →
        (∀ p ∈ msg.Content.Parts, p.ContentType = "audio_transcription" ∧ p.Text = "") →
        ∃ m, visitNode c messages cur = messages ++ [m]
          ∧ m.Author = remapAuthor msg.Author.Role msg.Metadata.IsUserSystemMessage
          ∧ ∀ sb : String,
              writeMessage sb m = sb ++ ("**" ++ m.Author ++ ":**\n\n" ++ "\n---\n\n")) := by
  refine ⟨fun parts q hq => transcript_empty_of_mem hq, ?_, ?_⟩
  · intro c fuel out hout m hm q hq hbranch
    have hP := output_invariant c
      (fun m => ∀ q ∈ m.Parts, q.Transcript = "") ?_ fuel out hout m hm q hq
    · exact hbranch.2 hP
    · intro cur m₁ hm₁ q₁ hq₁
      obtain ⟨node, -, he⟩ := (mem_visitNode_nil c cur m₁).mp hm₁
      obtain ⟨msg, -, -, -, hm₂⟩ := emitOf_eq_some node m₁ he
      subst hm₂
      exact transcript_empty_of_mem hq₁
  · intro c messages cur node msg hnode hmsg hct hne hall
    have hparts := processParts_all_transcription msg.Content.Parts hall
    have hlen : 0 < msg.Content.Parts.length := List.length_pos.mpr hne
    have hpne : processParts msg.Content.Parts ≠ [] := by
      rw [hparts]
      intro h0
      have hl := congrArg List.length h0
      rw [List.length_replicate, List.length_nil] at hl
      omega
    refine ⟨{ Author := remapAuthor msg.Author.Role msg.Metadata.IsUserSystemMessage,
              Parts := processParts msg.Content.Parts }, ?_, rfl, ?_⟩
    · rw [visitNode_eq, visitNode_nil, hnode]
      simp [emitOf, hmsg, hct, hpne]
    · intro sb
      rw [writeMessage_eq]
      simp only [hparts, renderParts_replicate_empty, String.append_empty]

theorem transcript_field_always_empty_witness :
    ∃ m, visitNode (spokenConversation "text" "") [] "a" = [] ++ [m]
      ∧ m.Author = remapAuthor "user" false
      ∧ ∀ sb : String,
          writeMessage sb m = sb ++ ("**" ++ m.Author ++ ":**\n\n" ++ "\n---\n\n") :=
  transcript_field_always_empty.2.2 (spokenConversation "text" "") [] "a"
    { Message := some { Author := ⟨"user"⟩, Content := ⟨"text", [transcriptionPart ""]⟩,
                        Metadata := ⟨false⟩ },
      Parent := "" }
    { Author := ⟨"user"⟩, Content := ⟨"text", [transcriptionPart ""]⟩, Metadata := ⟨false⟩ }
    (by decide) rfl (by decide) (by decide) (by decide)

/-! ## Lemmas on the file name -/

theorem replaceAllChar_data (s : String) (old new : Char) :
    (replaceAllChar s old new).data = s.data.map (fun ch => if ch = old then new else ch) := rfl

theorem replaceAllChar_length (s : String) (old new : Char) :
    (replaceAllChar s old new).length = s.length := by
  show (s.data.map _).length = s.data.length
  exact List.length_map _ _

theorem utf8ByteSize_go_map (f : Char → Char) (hf : ∀ ch, (f ch).utf8Size = ch.utf8Size)
    (l : List Char) : String.utf8ByteSize.go (l.map f) = String.utf8ByteSize.go l := by
  induction l with
  | nil => rfl
  | cons ch t ih =>
    show String.utf8ByteSize.go (t.map f) + (f ch).utf8Size
      = String.utf8ByteSize.go t + ch.utf8Size
    rw [ih, hf]

theorem replaceAllChar_utf8ByteSize (s : String) (old new : Char)
    (h : new.utf8Size = old.utf8Size) :
    (replaceAllChar s old new).utf8ByteSize = s.utf8ByteSize := by
  unfold replaceAllChar
  show String.utf8ByteSize.go _ = String.utf8ByteSize.go s.data
  apply utf8ByteSize_go_map
  intro ch
  by_cases hc : ch = old
  · simp [hc, h]
  · simp [hc]

theorem not_mem_replaceAllChar (s : String) (old new : Char) (h : new ≠ old) :
    old ∉ (replaceAllChar s old new).data := by
  rw [replaceAllChar_data, List.mem_map]
  rintro ⟨ch, -, hch⟩
  by_cases hc : ch = old
  · rw [if_pos hc] at hch
    exact h hch
  · rw [if_neg hc] at hch
    exact hc hch

theorem not_mem_replaceAllChar_of_not_mem (s : String) (old new x : Char) (hx : x ≠ new)
    (hs : x ∉ s.data) : x ∉ (replaceAllChar s old new).data := by
  rw [replaceAllChar_data, List.mem_map]
  rintro ⟨ch, hmem, hch⟩
  by_cases hc : ch = old
  · rw [if_pos hc] at hch
    exact hx hch.symm
  · rw [if_neg hc] at hch
    exact hs (hch ▸ hmem)

/-- C19: the title part of the output file name contains no space and no slash and has the
length of the title (in characters and in bytes), and the file name is `<outputDir>/<safeTitle>.md`;
but the titles `a b`, `a/b` and `a_b` are distinct and give the same file name, so the mapping is
not injective, and a batch of two conversations with the titles `a b` and `a/b` writes twice to
the same path. -/
theorem output_file_name_not_injective :
    (∀ title : String,
        ' ' ∉ (safeTitle title).data ∧ '/' ∉ (safeTitle title).data
        ∧ (safeTitle title).length = title.length
        ∧ (safeTitle title).utf8ByteSize = title.utf8ByteSize)
    ∧ (∀ outputDir title : String,
        outputFileName outputDir title = outputDir ++ "/" ++ safeTitle title ++ ".md")
    ∧ ("a b" ≠ "a/b" ∧ "a b" ≠ "a_b" ∧ "a/b" ≠ "a_b")
    ∧ (∀ outputDir : String,
        outputFileName outputDir "a b" = outputFileName outputDir "a_b"
        ∧ outputFileName outputDir "a/b" = outputFileName outputDir "a_b")
    ∧ (∀ outputDir : String, ¬ Function.Injective (outputFileName outputDir))
    ∧ writeLoop 0 "./output" [titledConversation "a b", titledConversation "a/b"]
        = some [("./output/a_b.md", "# a b\n\n"), ("./output/a_b.md", "# a/b\n\n")] := by
  have hsame : ∀ outputDir : String,
      outputFileName outputDir "a b" = outputFileName outputDir "a_b"
      ∧ outputFileName outputDir "a/b" = outputFileName outputDir "a_b" := by
    intro outputDir
    have h1 : safeTitle "a b" = safeTitle "a_b" := by decide
    have h2 : safeTitle "a/b" = safeTitle "a_b" := by decide
    exact ⟨by unfold outputFileName; rw [h1], by unfold outputFileName; rw [h2]⟩
  refine ⟨?_, fun _ _ => rfl, by decide, hsame, ?_, by decide⟩
  · intro title
    refine ⟨?_, ?_, ?_, ?_⟩
    · exact not_mem_replaceAllChar_of_not_mem _ '/' '_' ' ' (by decide)
        (not_mem_replaceAllChar title ' ' '_' (by decide))
    · exact not_mem_replaceAllChar _ '/' '_' (by decide)
    · simp only [safeTitle, replaceAllChar_length]
    · unfold safeTitle
      rw [replaceAllChar_utf8ByteSize _ _ _ (by decide),
        replaceAllChar_utf8ByteSize _ _ _ (by decide)]
  · intro outputDir hinj
    have := hinj (hsame outputDir).1
    revert this
    decide

end ChatGPTImport
